import Mathlib

/-
Verification development for the TOTL label matching repository.

The repository has three Python files:
  app.py    - the batch reconciliation pipeline (SQS handler, VeraCore auth,
              async report pull, per-label matching, S3 moves, SNS alerts)
  labels.py - the Streamlit dashboard (first variant)
  app2.py   - the Streamlit dashboard (second variant; same storage helpers)

This file gives a shallow embedding of the storage model and of the
functions the claims are about, translated from the Python source, and
proves or refutes each claim over that embedding.

Modelling conventions:
  - S3 storage is a presence map (bucket -> key -> Bool); object contents
    are irrelevant to every claim.
  - copy_object raises when the source key is missing; delete_object is
    idempotent and never fails.  move_file in app.py logs and re-raises
    any move failure, which the embedding renders as an Except error that
    carries the storage state at the moment of failure.
  - Network results (auth token, report rows, poll status responses) are
    parameters of the embedded functions: the handler receives the result
    of get_token and pull_report, and pull_report receives one response
    per status request.
  - Python strings are Lean strings; str.strip, slicing, os.path.basename
    and os.path.splitext are reimplemented below on character lists.
-/

/-- Python whitespace characters recognised by str.strip. -/
def pySpace (c : Char) : Bool :=
  c == ' ' || c == '\t' || c == '\n' || c == '\r' || c == '\x0b' || c == '\x0c'

/-- Characters of a string after str.strip: drop whitespace at both ends. -/
def pyStripChars (l : List Char) : List Char :=
  ((l.dropWhile pySpace).reverse.dropWhile pySpace).reverse

/-- Python str.strip. -/
def pyStrip (s : String) : String := ⟨pyStripChars s.data⟩

/-- Python slicing s[:n] (first n characters). -/
def pySlice (s : String) (n : Nat) : String := ⟨s.data.take n⟩

/-- Characters of os.path.basename: everything after the last slash. -/
def basenameChars (l : List Char) : List Char :=
  (l.reverse.takeWhile (fun c => c != '/')).reverse

/-- Python os.path.basename on posix paths. -/
def basenameStr (s : String) : String := ⟨basenameChars s.data⟩

/-- Characters of the root part of os.path.splitext: split at the last dot
unless every character before that dot is itself a dot (leading-dot rule of
CPython splitext, applied here to a basename). -/
def stemChars (l : List Char) : List Char :=
  let rev := l.reverse
  let extRev := rev.takeWhile (fun c => c != '.')
  if extRev.length = rev.length then l
  else
    let pre := (rev.drop (extRev.length + 1)).reverse
    if pre.any (fun c => c != '.') then pre else l

/-- Python os.path.splitext(s)[0] for a basename. -/
def stemStr (s : String) : String := ⟨stemChars s.data⟩

/-- Python values that can appear in a report row: the embedding needs
strings, integers, booleans and None to express truthiness and str(). -/
inductive PyVal
  | vStr (s : String)
  | vInt (n : Int)
  | vBool (b : Bool)
  | vNone
  deriving DecidableEq

/-- Python truthiness of a report row value. -/
def pyTruthy : PyVal → Bool
  | .vStr s => s != ""
  | .vInt n => n != 0
  | .vBool b => b
  | .vNone => false

/-- Python str() of a report row value. -/
def pyStr : PyVal → String
  | .vStr s => s
  | .vInt n => Int.repr n
  | .vBool b => if b then "True" else "False"
  | .vNone => "None"

/-- A report row is a mapping from column names to values. -/
abbrev Row := List (String × PyVal)

/-- Python dict.get(k): first binding of the key, if any. -/
def rowGet (r : Row) (k : String) : Option PyVal :=
  (r.find? (fun p => p.1 == k)).map (fun p => p.2)

/-- The blob store: which (bucket, key) pairs currently hold an object. -/
abbrev S3 := String → String → Bool

/-- Write an object (copy_object destination). -/
def s3put (s : S3) (b k : String) : S3 :=
  fun b2 k2 => if b2 = b ∧ k2 = k then true else s b2 k2

/-- Delete an object; S3 delete_object succeeds also when the key is absent. -/
def s3del (s : S3) (b k : String) : S3 :=
  fun b2 k2 => if b2 = b ∧ k2 = k then false else s b2 k2

/-- Failure of a storage move: copy_object raises when the source is gone. -/
inductive MoveErr
  | sourceMissing
  deriving DecidableEq

/-- One decoded label descriptor, as built by parse_sqs_records. -/
structure FileRef where
  bucket : String
  key : String
  filename : String
  order_ref : String
  deriving DecidableEq

namespace App

def BUCKET_NAME : String := "vwslabels"
def INCOMING_PFX : String := "incoming/"
def PROCESSED_PFX : String := "processed/"
def ERRORS_PFX : String := "errors/"
def ORDER_REPORT_NAME : String := "Open Orders"
def ORDER_ID_COLUMN : String := "OrderID"

/-- One inner storage-change notification inside an SQS body: either both
required fields are present, or reading them raises KeyError. -/
inductive S3Rec
  | notif (bucket key : String)
  | malformedRec
  deriving DecidableEq

/-- One SQS record body: either json.loads fails, or it yields a Records
list (possibly empty when the Records key is absent). -/
inductive SQSBody
  | badJson
  | parsed (records : List S3Rec)
  deriving DecidableEq

/-- The per-notification part of parse_sqs_records: basename, the hidden
and empty-name filters, splitext, strip, and the empty-reference filter. -/
def parseInner (bucket key : String) : Option FileRef :=
  let filename := basenameStr key
  if filename = "" ∨ filename.data.head? = some '.' then none
  else
    let order_ref := pyStrip (stemStr filename)
    if order_ref = "" then none
    else some ⟨bucket, key, filename, order_ref⟩

/-- The inner loop over the Records list of one body: a KeyError on one
notification aborts the rest of that body (the except clause sits at the
record level), keeping the descriptors appended before the failure. -/
def parseRecs : List S3Rec → List FileRef
  | [] => []
  | .malformedRec :: _ => []
  | .notif b k :: rest =>
    match parseInner b k with
    | some f => f :: parseRecs rest
    | none => parseRecs rest

/-- Decode one SQS record body; a JSON parse failure is logged and skipped. -/
def parseBody : SQSBody → List FileRef
  | .badJson => []
  | .parsed recs => parseRecs recs

/-- parse_sqs_records: concatenate the descriptors of every record body. -/
def parse_sqs_records (event : List SQSBody) : List FileRef :=
  event.flatMap parseBody

/-- Destination key used by the pipeline move: prefix plus unchanged filename. -/
def destKeyOf (dest_pfx filename : String) : String := dest_pfx ++ filename

/-- move_file of app.py: copy to destination then delete the source; any
failure (in particular a missing source) is logged and re-raised. -/
def move_file (s : S3) (bucket source_key dest_pfx filename : String) :
    Except MoveErr S3 :=
  if s bucket source_key then
    .ok (s3del (s3put s bucket (destKeyOf dest_pfx filename)) bucket source_key)
  else
    .error .sourceMissing

/-- Build the order-id lookup set (step 4 of the handler): the set of
str(value).strip() over rows whose OrderID value is present and truthy. -/
def buildOrderIds (rows : List Row) : List String :=
  rows.filterMap (fun r =>
    match rowGet r ORDER_ID_COLUMN with
    | some v => if pyTruthy v then some (pyStrip (pyStr v)) else none
    | none => none)

/-- Step 5 of the handler: move each file to processed or errors according
to membership of its order reference in the order-id set, accumulating the
matched and unmatched filename lists.  A move failure propagates, carrying
the storage state at the moment of failure. -/
def matchLoop (order_ids : List String) : List FileRef → S3 →
    Except (MoveErr × S3) (S3 × List String × List String)
  | [], s => .ok (s, [], [])
  | f :: fs, s =>
    if f.order_ref ∈ order_ids then
      match move_file s f.bucket f.key PROCESSED_PFX f.filename with
      | .error e => .error (e, s)
      | .ok s1 =>
        match matchLoop order_ids fs s1 with
        | .error es => .error es
        | .ok (s2, m, u) => .ok (s2, f.filename :: m, u)
    else
      match move_file s f.bucket f.key ERRORS_PFX f.filename with
      | .error e => .error (e, s)
      | .ok s1 =>
        match matchLoop order_ids fs s1 with
        | .error es => .error es
        | .ok (s2, m, u) => .ok (s2, m, f.filename :: u)

/-- The destination key the match loop actually writes for one file:
processed/ when its order reference is in the index, errors/ otherwise. -/
def actualDest (order_ids : List String) (f : FileRef) : String :=
  if f.order_ref ∈ order_ids then destKeyOf PROCESSED_PFX f.filename
  else destKeyOf ERRORS_PFX f.filename

/-- The move-everything-to-errors loop of the two batch-fatal branches.
A move failure propagates and aborts the remaining moves. -/
def errorSweep : List FileRef → S3 → Except (MoveErr × S3) S3
  | [], s => .ok s
  | f :: fs, s =>
    match move_file s f.bucket f.key ERRORS_PFX f.filename with
    | .error e => .error (e, s)
    | .ok s1 => errorSweep fs s1

/-- The "- filename" lines aggregated into alert bodies. -/
def alertLines (files : List FileRef) : List String :=
  files.map (fun f => "- " ++ f.filename)

/-- send_alert: the published subject is truncated to 100 characters. -/
def send_alert (subject body : String) : String × String :=
  (pySlice subject 100, body)

/-- send_alert including its try/except: the publish outcome is a
parameter; a publish failure is logged (returned as the second component)
and otherwise ignored, so the function always returns normally. -/
def send_alert_run (publish : Except String Unit) (subject body : String) :
    (String × String) × Option String :=
  ((pySlice subject 100, body),
    match publish with
    | .ok _ => none
    | .error e => some e)

def authAlertBody (files : List FileRef) : String :=
  "Failed to authenticate with VeraCore.\n\n" ++ Nat.repr files.length
    ++ " label file(s) could not be processed and have been moved to errors/:\n\n"
    ++ String.intercalate "\n" (alertLines files)

def authAlert (files : List FileRef) : String × String :=
  send_alert "Label Matcher - Authentication Failure" (authAlertBody files)

def reportAlertBody (files : List FileRef) : String :=
  "Failed to pull VeraCore report " ++ ORDER_REPORT_NAME ++ ".\n\n"
    ++ Nat.repr files.length
    ++ " label file(s) could not be processed and have been moved to errors/:\n\n"
    ++ String.intercalate "\n" (alertLines files)

def reportAlert (files : List FileRef) : String × String :=
  send_alert "Label Matcher - Report Failure" (reportAlertBody files)

def unmatchedAlert (u : List String) : String × String :=
  send_alert ("Label Matcher - " ++ Nat.repr u.length ++ " Unmatched Label(s)")
    ("The following label files were uploaded but no matching order was found in VeraCore report "
      ++ ORDER_REPORT_NAME ++ ":\n\n"
      ++ String.intercalate "\n" (u.map (fun fn => "- " ++ fn))
      ++ "\n\nThese files have been moved to the errors/ folder.\nPlease verify filenames match existing order references.")

def matchedAlert (m : List String) : String × String :=
  send_alert ("Label Matcher - " ++ Nat.repr m.length ++ " Label(s) Matched Successfully")
    ("The following labels were matched to orders and are ready for printing:\n\n"
      ++ String.intercalate "\n" (m.map (fun fn => "- " ++ fn)))

/-- Everything the handler produces in one invocation: the returned status
code (none when an exception propagated), the alerts published in order,
the propagated exception if any, the final storage state, and the matched
and unmatched filename lists. -/
structure RunResult where
  status : Option Nat
  alerts : List (String × String)
  raised : Option MoveErr
  final : S3
  matched : List String
  unmatched : List String

/-- The Lambda handler of app.py.  The auth parameter is the result of
get_token and the report parameter is the result of pull_report; both are
None on failure, exactly as in the source. -/
def handler (auth : Option Unit) (report : Option (List Row))
    (event : List SQSBody) (s : S3) : RunResult :=
  let files := parse_sqs_records event
  if files = [] then
    ⟨some 200, [], none, s, [], []⟩
  else
    match auth with
    | none =>
      match errorSweep files s with
      | .ok s2 => ⟨some 500, [authAlert files], none, s2, [], []⟩
      | .error (e, s2) => ⟨none, [authAlert files], some e, s2, [], []⟩
    | some _ =>
      match report with
      | none =>
        match errorSweep files s with
        | .ok s2 => ⟨some 500, [reportAlert files], none, s2, [], []⟩
        | .error (e, s2) => ⟨none, [reportAlert files], some e, s2, [], []⟩
      | some rows =>
        match matchLoop (buildOrderIds rows) files s with
        | .error (e, s2) => ⟨none, [], some e, s2, [], []⟩
        | .ok (s2, m, u) =>
          ⟨some 200,
            (if u = [] then [] else [unmatchedAlert u])
              ++ (if m = [] then [] else [matchedAlert m]),
            none, s2, m, u⟩

/-- One status-poll response: a transport exception, or an HTTP response
with its status code and the optional Status field of the JSON body. -/
inductive PollResp
  | transport
  | http (code : Nat) (status : Option String)
  deriving DecidableEq

/-- Verdict of the poll phase of pull_report. -/
inductive PollVerdict
  | done | tooLarge | badStatus | transportErr | timedOut
  deriving DecidableEq

/-- The fixed attempt budget of the poll loop (range(30)). -/
def POLL_ATTEMPTS : Nat := 30

/-- The fixed inter-poll delay in seconds (time.sleep(2)). -/
def POLL_DELAY_SECONDS : Nat := 2

/-- A response on which the loop polls again: HTTP 200 with a Status that
is neither Done nor the large-result sentinel. -/
def pollContinues : PollResp → Bool
  | .http code st => code == 200 && st != some "Done" && st != some "Request too Large"
  | .transport => false

/-- The poll loop of pull_report: fuel is the remaining attempt budget and
i the index of the next status request.  Returns the verdict and the total
number of status requests issued. -/
def poll_go (resp : Nat → PollResp) : Nat → Nat → PollVerdict × Nat
  | 0, i => (.timedOut, i)
  | fuel + 1, i =>
    match resp i with
    | .transport => (.transportErr, i + 1)
    | .http code st =>
      if code = 200 then
        if st = some "Done" then (.done, i + 1)
        else if st = some "Request too Large" then (.tooLarge, i + 1)
        else poll_go resp fuel (i + 1)
      else (.badStatus, i + 1)

/-- The poll phase of pull_report: 30 attempts starting at index 0. -/
def pollPhase (resp : Nat → PollResp) : PollVerdict × Nat :=
  poll_go resp POLL_ATTEMPTS 0

/-- The report-submit response: transport error, or HTTP code plus the
optional TaskId field. -/
inductive SubmitResp
  | transport
  | http (code : Nat) (taskId : Option String)
  deriving DecidableEq

/-- The report-fetch response: transport error, or HTTP code plus the
optional Data field. -/
inductive FetchResp
  | transport
  | http (code : Nat) (rows : Option (List Row))
  deriving DecidableEq

/-- The fetch step: on HTTP 200 return the Data field (default empty list),
otherwise fail. -/
def fetchOutcome : FetchResp → Option (List Row)
  | .transport => none
  | .http code d => if code = 200 then some (d.getD []) else none

/-- pull_report of app.py: submit, poll up to the budget, fetch only when
the poll verdict is Done; every failure yields None. -/
def pull_report (submit : SubmitResp) (resp : Nat → PollResp)
    (fetch : FetchResp) : Option (List Row) :=
  match submit with
  | .transport => none
  | .http code tid =>
    if code = 200 then
      match tid with
      | some t =>
        if t = "" then none
        else
          match (pollPhase resp).1 with
          | .done => fetchOutcome fetch
          | _ => none
      | none => none
    else none

end App

namespace Dash

def BUCKET_NAME : String := "vwslabels"
def PROCESSED_PFX : String := "processed/"
def PRINTED_PFX : String := "printed/"
def ERRORS_PFX : String := "errors/"

/-- Destination key of the dashboard move (labels.py and app2.py): the
destination prefix, a timestamp, an underscore, then the source basename.
The timestamp string is a parameter; the source obtains it from
datetime.now().strftime. -/
def destKeyOf (now_ts dest_pfx source_key : String) : String :=
  dest_pfx ++ now_ts ++ "_" ++ basenameStr source_key

/-- move_file of labels.py and app2.py: copy to the timestamped
destination key, then delete the source. -/
def move_file (s : S3) (now_ts source_key dest_pfx : String) :
    Except MoveErr S3 :=
  if s BUCKET_NAME source_key then
    .ok (s3del (s3put s BUCKET_NAME (destKeyOf now_ts dest_pfx source_key))
      BUCKET_NAME source_key)
  else
    .error .sourceMissing

end Dash

/-- An envelope is malformed in the sense of the spec when its JSON does
not parse or some inner notification is missing a required field. -/
def envelopeMalformed : App.SQSBody → Bool
  | .badJson => true
  | .parsed recs => recs.any (fun r => decide (r = App.S3Rec.malformedRec))

/-
Concrete inputs used by witnesses and counterexamples.
-/

/-- A batch event with two label files below incoming/. -/
def fxEvent : List App.SQSBody :=
  [.parsed [.notif "vwslabels" "incoming/PO-1.pdf",
            .notif "vwslabels" "incoming/PO-2.pdf"]]

/-- Storage holding exactly the two incoming objects of fxEvent. -/
def fxS0 : S3 := fun b k =>
  b == "vwslabels" && (k == "incoming/PO-1.pdf" || k == "incoming/PO-2.pdf")

/-- Storage holding only the second incoming object of fxEvent. -/
def fxOnlySecond : S3 := fun b k =>
  b == "vwslabels" && k == "incoming/PO-2.pdf"

/-- Empty storage: every object of the batch has already been moved away. -/
def fxEmpty : S3 := fun _ _ => false

/-- A report whose only row carries order id PO-1. -/
def fxRows : List Row := [[("OrderID", PyVal.vStr "PO-1")]]

/-- A report whose only row carries the integer order id 0 (falsy). -/
def fxZeroRows : List Row := [[("OrderID", PyVal.vInt 0)]]

/-- A batch event with the single label file 0.pdf. -/
def fxZeroEvent : List App.SQSBody :=
  [.parsed [.notif "vwslabels" "incoming/0.pdf"]]

/-- Storage holding exactly incoming/0.pdf. -/
def fxZeroS0 : S3 := fun b k =>
  b == "vwslabels" && k == "incoming/0.pdf"

/-- A report whose only row carries the integer order id 123. -/
def fxIntRows : List Row := [[("OrderID", PyVal.vInt 123)]]

/-- A poll oracle that reports Done on the first status request. -/
def fxRespDone : Nat → App.PollResp := fun _ => .http 200 (some "Done")

/-- An envelope whose first notification is well-formed and whose second
is missing a required field. -/
def fxEnvGoodBad : App.SQSBody :=
  .parsed [.notif "vwslabels" "incoming/PO-9.pdf", .malformedRec]

/-- An envelope whose first notification is missing a required field and
whose second is well-formed. -/
def fxEnvBadGood : App.SQSBody :=
  .parsed [.malformedRec, .notif "vwslabels" "incoming/PO-9.pdf"]

/-
Helper lemmas.  Everything below this point is a theorem; the claim
theorems themselves come last and are marked with their claim ids.
-/

theorem listAppend_ne_of_head_ne {p q xs ys : List Char} {cp cq : Char}
    (hp : p.head? = some cp) (hq : q.head? = some cq) (hne : cp ≠ cq) :
    p ++ xs ≠ q ++ ys := by
  intro h
  cases p with
  | nil => cases hp
  | cons a l =>
    cases q with
    | nil => cases hq
    | cons b r =>
      rw [List.head?_cons] at hp hq
      injection hp with hp1
      injection hq with hq1
      simp only [List.cons_append] at h
      injection h with h1 _
      exact hne (by rw [← hp1, ← hq1, h1])

theorem strAppend_ne_of_head_ne {p q : String} (xs ys : String) {cp cq : Char}
    (hp : p.data.head? = some cp) (hq : q.data.head? = some cq) (hne : cp ≠ cq) :
    p ++ xs ≠ q ++ ys := by
  intro h
  have h2 := congrArg String.data h
  rw [String.data_append, String.data_append] at h2
  exact listAppend_ne_of_head_ne hp hq hne h2

theorem not_listPrefix_of_head_ne {p q ys : List Char} {cp cq : Char}
    (hp : p.head? = some cp) (hq : q.head? = some cq) (hne : cp ≠ cq) :
    ¬ p <+: q ++ ys := by
  rintro ⟨t, ht⟩
  exact listAppend_ne_of_head_ne hp hq hne ht

theorem strAppend_cancel_left {p a b : String} (h : p ++ a = p ++ b) : a = b := by
  have h2 := congrArg String.data h
  rw [String.data_append, String.data_append] at h2
  exact String.ext (List.append_cancel_left h2)

theorem incoming_head : (App.INCOMING_PFX).data.head? = some 'i' := by decide

theorem processed_head : (App.PROCESSED_PFX).data.head? = some 'p' := by decide

theorem errors_head : (App.ERRORS_PFX).data.head? = some 'e' := by decide

/-- A key below incoming/ is never one of the two pipeline destination keys. -/
theorem incoming_ne_dest {k fn : String} (hk : App.INCOMING_PFX.data <+: k.data) :
    k ≠ App.destKeyOf App.PROCESSED_PFX fn ∧ k ≠ App.destKeyOf App.ERRORS_PFX fn := by
  obtain ⟨t, ht⟩ := hk
  constructor
  · intro h
    have h2 := congrArg String.data h
    rw [← ht] at h2
    rw [App.destKeyOf, String.data_append] at h2
    exact listAppend_ne_of_head_ne incoming_head processed_head (by decide) h2
  · intro h
    have h2 := congrArg String.data h
    rw [← ht] at h2
    rw [App.destKeyOf, String.data_append] at h2
    exact listAppend_ne_of_head_ne incoming_head errors_head (by decide) h2

theorem procKey_ne_errKey {x y : String} :
    App.destKeyOf App.PROCESSED_PFX x ≠ App.destKeyOf App.ERRORS_PFX y :=
  strAppend_ne_of_head_ne x y processed_head errors_head (by decide)

/-- str.strip is the identity on a string with no whitespace character. -/
theorem dropWhile_eq_self_of_false {p : Char → Bool} {l : List Char}
    (h : ∀ c ∈ l, p c = false) : l.dropWhile p = l := by
  cases l with
  | nil => rfl
  | cons a t => simp [List.dropWhile_cons, h a (List.mem_cons_self a t)]

theorem pyStripChars_of_no_space {l : List Char}
    (h : ∀ c ∈ l, pySpace c = false) : pyStripChars l = l := by
  unfold pyStripChars
  rw [dropWhile_eq_self_of_false h,
    dropWhile_eq_self_of_false (fun c hc => h c (List.mem_reverse.mp hc)),
    List.reverse_reverse]

theorem pySpace_digitChar (d : Nat) : pySpace (Nat.digitChar d) = false := by
  match d with
  | 0 | 1 | 2 | 3 | 4 | 5 | 6 | 7 | 8 | 9 | 10 | 11 | 12 | 13 | 14 | 15 => decide
  | n + 16 =>
    unfold Nat.digitChar
    repeat rw [if_neg (by omega)]
    decide

theorem pySpace_toDigitsCore {b : Nat} : ∀ (fuel n : Nat) (acc : List Char),
    (∀ c ∈ acc, pySpace c = false) →
    ∀ c ∈ Nat.toDigitsCore b fuel n acc, pySpace c = false := by
  intro fuel
  induction fuel with
  | zero => intro n acc hacc c hc; exact hacc c hc
  | succ k ih =>
    intro n acc hacc c hc
    simp only [Nat.toDigitsCore] at hc
    split at hc
    · rcases List.mem_cons.mp hc with h1 | h1
      · rw [h1]; exact pySpace_digitChar _
      · exact hacc c h1
    · refine ih (n / b) (Nat.digitChar (n % b) :: acc) ?_ c hc
      intro x hx
      rcases List.mem_cons.mp hx with h1 | h1
      · rw [h1]; exact pySpace_digitChar _
      · exact hacc x h1

theorem pySpace_natRepr (n : Nat) : ∀ c ∈ (Nat.repr n).data, pySpace c = false := by
  intro c hc
  exact pySpace_toDigitsCore (n + 1) n [] (by intro x hx; cases hx) c hc

theorem pySpace_intRepr (n : Int) : ∀ c ∈ (Int.repr n).data, pySpace c = false := by
  cases n with
  | ofNat m => exact pySpace_natRepr m
  | negSucc m =>
    intro c hc
    have hd : (Int.repr (Int.negSucc m)).data = '-' :: (Nat.repr (m + 1)).data := rfl
    rw [hd] at hc
    rcases List.mem_cons.mp hc with h1 | h1
    · rw [h1]; decide
    · exact pySpace_natRepr (m + 1) c h1

/-- The decimal rendering of an integer survives str.strip unchanged. -/
theorem pyStrip_intRepr (n : Int) : pyStrip (Int.repr n) = Int.repr n := by
  show (⟨pyStripChars (Int.repr n).data⟩ : String) = Int.repr n
  rw [pyStripChars_of_no_space (pySpace_intRepr n)]

/-- Membership in the order-id index built from the report rows. -/
theorem mem_buildOrderIds {rows : List Row} {x : String} :
    x ∈ App.buildOrderIds rows ↔
      ∃ r ∈ rows, ∃ v, rowGet r App.ORDER_ID_COLUMN = some v ∧
        pyTruthy v = true ∧ pyStrip (pyStr v) = x := by
  unfold App.buildOrderIds
  rw [List.mem_filterMap]
  constructor
  · rintro ⟨r, hr, hfr⟩
    refine ⟨r, hr, ?_⟩
    split at hfr
    · next v hv =>
      split at hfr
      · next ht =>
        injection hfr with hfr1
        exact ⟨v, hv, ht, hfr1⟩
      · cases hfr
    · cases hfr
  · rintro ⟨r, hr, v, hv, ht, hx⟩
    refine ⟨r, hr, ?_⟩
    rw [hv]
    simp [ht, hx]

theorem move_file_ok {s s2 : S3} {fb sk dp fn : String}
    (h : App.move_file s fb sk dp fn = .ok s2) :
    s fb sk = true ∧
    s2 = s3del (s3put s fb (App.destKeyOf dp fn)) fb sk := by
  unfold App.move_file at h
  split at h
  · next hcond => injection h with h1; exact ⟨hcond, h1.symm⟩
  · cases h

theorem move_file_error {s : S3} {fb sk dp fn : String}
    (h : s fb sk = false) :
    App.move_file s fb sk dp fn = .error .sourceMissing := by
  unfold App.move_file
  rw [if_neg (by simp [h])]

theorem move_keeps {s s2 : S3} {fb sk dp fn b k : String}
    (h : App.move_file s fb sk dp fn = .ok s2)
    (hin : s b k = true) (hno : ¬(b = fb ∧ k = sk)) : s2 b k = true := by
  rw [(move_file_ok h).2]
  simp only [s3del, s3put]
  rw [if_neg hno]
  split
  · rfl
  · exact hin

theorem move_stays_false {s s2 : S3} {fb sk dp fn b k : String}
    (h : App.move_file s fb sk dp fn = .ok s2)
    (hout : s b k = false) (hnd : ¬(b = fb ∧ k = App.destKeyOf dp fn)) :
    s2 b k = false := by
  rw [(move_file_ok h).2]
  simp only [s3del, s3put]
  by_cases hsk : b = fb ∧ k = sk
  · rw [if_pos hsk]
  · rw [if_neg hsk, if_neg hnd]; exact hout

theorem move_sets_dest {s s2 : S3} {fb sk dp fn : String}
    (h : App.move_file s fb sk dp fn = .ok s2)
    (hne : sk ≠ App.destKeyOf dp fn) :
    s2 fb (App.destKeyOf dp fn) = true := by
  rw [(move_file_ok h).2]
  have h1 : ¬(App.destKeyOf dp fn = sk) := fun hx => hne hx.symm
  simp [s3del, s3put, h1]

theorem move_clears_src {s s2 : S3} {fb sk dp fn : String}
    (h : App.move_file s fb sk dp fn = .ok s2) : s2 fb sk = false := by
  rw [(move_file_ok h).2]
  simp [s3del]

theorem matchLoop_nil (oids : List String) (s : S3) :
    App.matchLoop oids [] s = .ok (s, [], []) := rfl

theorem matchLoop_cons (oids : List String) (f : FileRef) (fs : List FileRef) (s : S3) :
    App.matchLoop oids (f :: fs) s =
      if f.order_ref ∈ oids then
        match App.move_file s f.bucket f.key App.PROCESSED_PFX f.filename with
        | .error e => .error (e, s)
        | .ok s1 =>
          match App.matchLoop oids fs s1 with
          | .error es => .error es
          | .ok (s2, m, u) => .ok (s2, f.filename :: m, u)
      else
        match App.move_file s f.bucket f.key App.ERRORS_PFX f.filename with
        | .error e => .error (e, s)
        | .ok s1 =>
          match App.matchLoop oids fs s1 with
          | .error es => .error es
          | .ok (s2, m, u) => .ok (s2, m, f.filename :: u) := rfl

theorem actualDest_eq (oids : List String) (f : FileRef) :
    App.actualDest oids f =
      App.destKeyOf (if f.order_ref ∈ oids then App.PROCESSED_PFX else App.ERRORS_PFX)
        f.filename := by
  unfold App.actualDest
  split <;> rfl

theorem matchLoop_cons_ok {oids : List String} {f : FileRef} {fs : List FileRef}
    {s s2 : S3} {m u : List String}
    (h : App.matchLoop oids (f :: fs) s = .ok (s2, m, u)) :
    ∃ s1 m2 u2,
      App.move_file s f.bucket f.key
        (if f.order_ref ∈ oids then App.PROCESSED_PFX else App.ERRORS_PFX)
        f.filename = .ok s1 ∧
      App.matchLoop oids fs s1 = .ok (s2, m2, u2) ∧
      m = (if f.order_ref ∈ oids then f.filename :: m2 else m2) ∧
      u = (if f.order_ref ∈ oids then u2 else f.filename :: u2) := by
  rw [matchLoop_cons] at h
  split at h
  · next hmem =>
    cases hmv : App.move_file s f.bucket f.key App.PROCESSED_PFX f.filename with
    | error e => simp [hmv] at h
    | ok s1 =>
      simp only [hmv] at h
      cases hrec : App.matchLoop oids fs s1 with
      | error es => simp [hrec] at h
      | ok t =>
        obtain ⟨s2x, mx, ux⟩ := t
        simp only [hrec, Except.ok.injEq, Prod.mk.injEq] at h
        obtain ⟨hs2, hm, hu⟩ := h
        subst hs2
        refine ⟨s1, mx, ux, ?_, hrec, ?_, ?_⟩
        · rw [if_pos hmem]; exact hmv
        · rw [if_pos hmem, ← hm]
        · rw [if_pos hmem, ← hu]
  · next hmem =>
    cases hmv : App.move_file s f.bucket f.key App.ERRORS_PFX f.filename with
    | error e => simp [hmv] at h
    | ok s1 =>
      simp only [hmv] at h
      cases hrec : App.matchLoop oids fs s1 with
      | error es => simp [hrec] at h
      | ok t =>
        obtain ⟨s2x, mx, ux⟩ := t
        simp only [hrec, Except.ok.injEq, Prod.mk.injEq] at h
        obtain ⟨hs2, hm, hu⟩ := h
        subst hs2
        refine ⟨s1, mx, ux, ?_, hrec, ?_, ?_⟩
        · rw [if_neg hmem]; exact hmv
        · rw [if_neg hmem, ← hm]
        · rw [if_neg hmem, ← hu]

theorem incoming_not_prefix_procDest {fn : String} :
    ¬ App.INCOMING_PFX.data <+: (App.destKeyOf App.PROCESSED_PFX fn).data := by
  rw [App.destKeyOf, String.data_append]
  exact not_listPrefix_of_head_ne incoming_head processed_head (by decide)

theorem incoming_not_prefix_errDest {fn : String} :
    ¬ App.INCOMING_PFX.data <+: (App.destKeyOf App.ERRORS_PFX fn).data := by
  rw [App.destKeyOf, String.data_append]
  exact not_listPrefix_of_head_ne incoming_head errors_head (by decide)

/-- An incoming-prefixed key never equals the key the match loop writes. -/
theorem incoming_ne_actualDest {k : String} (hk : App.INCOMING_PFX.data <+: k.data)
    (oids : List String) (f : FileRef) : k ≠ App.actualDest oids f := by
  intro h
  rw [h] at hk
  unfold App.actualDest at hk
  split at hk
  · exact incoming_not_prefix_procDest hk
  · exact incoming_not_prefix_errDest hk

theorem matchLoop_keeps (oids : List String) :
    ∀ (fs : List FileRef) (s s2 : S3) (m u : List String) (b k : String),
      App.matchLoop oids fs s = .ok (s2, m, u) →
      s b k = true →
      (∀ f ∈ fs, ¬(b = f.bucket ∧ k = f.key)) →
      s2 b k = true := by
  intro fs
  induction fs with
  | nil =>
    intro s s2 m u b k h hin _
    simp only [matchLoop_nil, Except.ok.injEq, Prod.mk.injEq] at h
    rw [← h.1]
    exact hin
  | cons f fs ih =>
    intro s s2 m u b k h hin hsrc
    obtain ⟨s1, m2, u2, hmv, hrec, _, _⟩ := matchLoop_cons_ok h
    exact ih s1 s2 m2 u2 b k hrec
      (move_keeps hmv hin (hsrc f (List.mem_cons_self f fs)))
      (fun g hg => hsrc g (List.mem_cons_of_mem f hg))

theorem matchLoop_stays_false (oids : List String) :
    ∀ (fs : List FileRef) (s s2 : S3) (m u : List String) (b k : String),
      App.matchLoop oids fs s = .ok (s2, m, u) →
      s b k = false →
      (∀ f ∈ fs, ¬(b = f.bucket ∧ k = App.actualDest oids f)) →
      s2 b k = false := by
  intro fs
  induction fs with
  | nil =>
    intro s s2 m u b k h hout _
    simp only [matchLoop_nil, Except.ok.injEq, Prod.mk.injEq] at h
    rw [← h.1]
    exact hout
  | cons f fs ih =>
    intro s s2 m u b k h hout hdst
    obtain ⟨s1, m2, u2, hmv, hrec, _, _⟩ := matchLoop_cons_ok h
    refine ih s1 s2 m2 u2 b k hrec
      (move_stays_false hmv hout ?_)
      (fun g hg => hdst g (List.mem_cons_of_mem f hg))
    intro hx
    refine hdst f (List.mem_cons_self f fs) ⟨hx.1, ?_⟩
    rw [actualDest_eq]
    exact hx.2

theorem matchLoop_end (oids : List String) :
    ∀ (fs : List FileRef) (s s2 : S3) (m u : List String),
      App.matchLoop oids fs s = .ok (s2, m, u) →
      (∀ g ∈ fs, App.INCOMING_PFX.data <+: g.key.data) →
      ∀ f ∈ fs,
        s2 f.bucket f.key = false ∧
        s2 f.bucket (App.actualDest oids f) = true := by
  intro fs
  induction fs with
  | nil => intro s s2 m u _ _ f hf; cases hf
  | cons g fs ih =>
    intro s s2 m u h hpfx f hf
    obtain ⟨s1, m2, u2, hmv, hrec, _, _⟩ := matchLoop_cons_ok h
    have hpfx2 : ∀ x ∈ fs, App.INCOMING_PFX.data <+: x.key.data :=
      fun x hx => hpfx x (List.mem_cons_of_mem g hx)
    rcases List.mem_cons.mp hf with rfl | hf2
    · have hkg : App.INCOMING_PFX.data <+: f.key.data :=
        hpfx f (List.mem_cons_self f fs)
      constructor
      · -- the source key is deleted by the move and never re-created
        refine matchLoop_stays_false oids fs s1 s2 m2 u2 f.bucket f.key hrec
          (move_clears_src hmv) ?_
        intro x hx hcol
        exact incoming_ne_actualDest hkg oids x hcol.2
      · -- the written destination key survives the remaining moves
        have hdest : s1 f.bucket (App.actualDest oids f) = true := by
          rw [actualDest_eq]
          refine move_sets_dest hmv ?_
          intro hx
          rw [← actualDest_eq] at hx
          exact incoming_ne_actualDest hkg oids f hx
        refine matchLoop_keeps oids fs s1 s2 m2 u2 f.bucket (App.actualDest oids f) hrec hdest ?_
        intro x hx hcol
        exact incoming_ne_actualDest (hcol.2 ▸ hpfx2 x hx) oids f rfl
    · exact ih s1 s2 m2 u2 hrec hpfx2 f hf2

theorem matchLoop_lists (oids : List String) :
    ∀ (fs : List FileRef) (s s2 : S3) (m u : List String),
      App.matchLoop oids fs s = .ok (s2, m, u) →
      m = (fs.filter (fun f => decide (f.order_ref ∈ oids))).map (fun f => f.filename) ∧
      u = (fs.filter (fun f => !decide (f.order_ref ∈ oids))).map (fun f => f.filename) := by
  intro fs
  induction fs with
  | nil =>
    intro s s2 m u h
    simp only [matchLoop_nil, Except.ok.injEq, Prod.mk.injEq] at h
    exact ⟨h.2.1.symm, h.2.2.symm⟩
  | cons f fs ih =>
    intro s s2 m u h
    obtain ⟨s1, m2, u2, _, hrec, hm, hu⟩ := matchLoop_cons_ok h
    obtain ⟨hm2, hu2⟩ := ih s1 s2 m2 u2 hrec
    by_cases hmem : f.order_ref ∈ oids
    · rw [hm, hu, if_pos hmem, if_pos hmem, hm2, hu2]
      constructor
      · simp [List.filter_cons, hmem]
      · simp [List.filter_cons, hmem]
    · rw [hm, hu, if_neg hmem, if_neg hmem, hm2, hu2]
      constructor
      · simp [List.filter_cons, hmem]
      · simp [List.filter_cons, hmem]

theorem matchLoop_count (oids : List String) :
    ∀ (fs : List FileRef) (s s2 : S3) (m u : List String),
      App.matchLoop oids fs s = .ok (s2, m, u) →
      m.length + u.length = fs.length := by
  intro fs
  induction fs with
  | nil =>
    intro s s2 m u h
    simp only [matchLoop_nil, Except.ok.injEq, Prod.mk.injEq] at h
    rw [← h.2.1, ← h.2.2]
    rfl
  | cons f fs ih =>
    intro s s2 m u h
    obtain ⟨s1, m2, u2, _, hrec, hm, hu⟩ := matchLoop_cons_ok h
    have hlen := ih s1 s2 m2 u2 hrec
    by_cases hmem : f.order_ref ∈ oids
    · rw [hm, hu, if_pos hmem, if_pos hmem]
      simp only [List.length_cons]
      omega
    · rw [hm, hu, if_neg hmem, if_neg hmem]
      simp only [List.length_cons]
      omega

theorem errorSweep_nil (s : S3) : App.errorSweep [] s = .ok s := rfl

theorem errorSweep_cons (f : FileRef) (fs : List FileRef) (s : S3) :
    App.errorSweep (f :: fs) s =
      match App.move_file s f.bucket f.key App.ERRORS_PFX f.filename with
      | .error e => .error (e, s)
      | .ok s1 => App.errorSweep fs s1 := rfl

theorem errorSweep_cons_ok {f : FileRef} {fs : List FileRef} {s s2 : S3}
    (h : App.errorSweep (f :: fs) s = .ok s2) :
    ∃ s1, App.move_file s f.bucket f.key App.ERRORS_PFX f.filename = .ok s1 ∧
      App.errorSweep fs s1 = .ok s2 := by
  rw [errorSweep_cons] at h
  cases hmv : App.move_file s f.bucket f.key App.ERRORS_PFX f.filename with
  | error e => simp [hmv] at h
  | ok s1 =>
    simp only [hmv] at h
    exact ⟨s1, rfl, h⟩

theorem errorSweep_keeps :
    ∀ (fs : List FileRef) (s s2 : S3) (b k : String),
      App.errorSweep fs s = .ok s2 → s b k = true →
      (∀ f ∈ fs, ¬(b = f.bucket ∧ k = f.key)) → s2 b k = true := by
  intro fs
  induction fs with
  | nil =>
    intro s s2 b k h hin _
    rw [errorSweep_nil] at h
    injection h with h1
    rw [← h1]
    exact hin
  | cons f fs ih =>
    intro s s2 b k h hin hsrc
    obtain ⟨s1, hmv, hrec⟩ := errorSweep_cons_ok h
    exact ih s1 s2 b k hrec
      (move_keeps hmv hin (hsrc f (List.mem_cons_self f fs)))
      (fun g hg => hsrc g (List.mem_cons_of_mem f hg))

theorem errorSweep_stays_false :
    ∀ (fs : List FileRef) (s s2 : S3) (b k : String),
      App.errorSweep fs s = .ok s2 → s b k = false →
      (∀ f ∈ fs, ¬(b = f.bucket ∧ k = App.destKeyOf App.ERRORS_PFX f.filename)) →
      s2 b k = false := by
  intro fs
  induction fs with
  | nil =>
    intro s s2 b k h hout _
    rw [errorSweep_nil] at h
    injection h with h1
    rw [← h1]
    exact hout
  | cons f fs ih =>
    intro s s2 b k h hout hdst
    obtain ⟨s1, hmv, hrec⟩ := errorSweep_cons_ok h
    exact ih s1 s2 b k hrec
      (move_stays_false hmv hout (hdst f (List.mem_cons_self f fs)))
      (fun g hg => hdst g (List.mem_cons_of_mem f hg))

/-- When every source is present, below incoming/, and the sources are
pairwise distinct, the error sweep succeeds and lands every file in
errors/ while removing it from its source key. -/
theorem errorSweep_ok :
    ∀ (fs : List FileRef) (s : S3),
      (∀ f ∈ fs, s f.bucket f.key = true) →
      (∀ f ∈ fs, App.INCOMING_PFX.data <+: f.key.data) →
      fs.Pairwise (fun f g => ¬(f.bucket = g.bucket ∧ f.key = g.key)) →
      ∃ s2, App.errorSweep fs s = .ok s2 ∧
        ∀ f ∈ fs,
          s2 f.bucket (App.destKeyOf App.ERRORS_PFX f.filename) = true ∧
          s2 f.bucket f.key = false := by
  intro fs
  induction fs with
  | nil =>
    intro s _ _ _
    exact ⟨s, errorSweep_nil s, fun f hf => absurd hf (List.not_mem_nil f)⟩
  | cons f fs ih =>
    intro s hsrc hpfx hdist
    obtain ⟨hhead, htail⟩ := List.pairwise_cons.mp hdist
    have hkey : App.INCOMING_PFX.data <+: f.key.data :=
      hpfx f (List.mem_cons_self f fs)
    have hpfx2 : ∀ g ∈ fs, App.INCOMING_PFX.data <+: g.key.data :=
      fun g hg => hpfx g (List.mem_cons_of_mem f hg)
    have hcond : s f.bucket f.key = true := hsrc f (List.mem_cons_self f fs)
    have hmv : App.move_file s f.bucket f.key App.ERRORS_PFX f.filename =
        .ok (s3del (s3put s f.bucket (App.destKeyOf App.ERRORS_PFX f.filename))
          f.bucket f.key) := by
      unfold App.move_file
      rw [if_pos hcond]
    have hsrc1 : ∀ g ∈ fs,
        (s3del (s3put s f.bucket (App.destKeyOf App.ERRORS_PFX f.filename))
          f.bucket f.key) g.bucket g.key = true := by
      intro g hg
      refine move_keeps hmv (hsrc g (List.mem_cons_of_mem f hg)) ?_
      intro hx
      exact hhead g hg ⟨hx.1.symm, hx.2.symm⟩
    obtain ⟨s2, hsw, hrest⟩ := ih _ hsrc1 hpfx2 htail
    refine ⟨s2, ?_, ?_⟩
    · rw [errorSweep_cons, hmv]
      exact hsw
    · intro g hg
      rcases List.mem_cons.mp hg with rfl | hg2
      · constructor
        · refine errorSweep_keeps fs _ s2 g.bucket
            (App.destKeyOf App.ERRORS_PFX g.filename) hsw ?_ ?_
          · refine move_sets_dest hmv ?_
            intro hx
            exact incoming_not_prefix_errDest (hx ▸ hkey)
          · intro x hx hcol
            exact incoming_not_prefix_errDest (hcol.2 ▸ hpfx2 x hx)
        · refine errorSweep_stays_false fs _ s2 g.bucket g.key hsw
            (move_clears_src hmv) ?_
          intro x hx hcol
          exact incoming_not_prefix_errDest (hcol.2 ▸ hkey)
      · exact hrest g hg2

theorem handler_empty (auth : Option Unit) (report : Option (List Row))
    (event : List App.SQSBody) (s : S3)
    (he : App.parse_sqs_records event = []) :
    App.handler auth report event s = ⟨some 200, [], none, s, [], []⟩ := by
  simp only [App.handler]
  rw [if_pos he]

theorem handler_authFail (report : Option (List Row)) (event : List App.SQSBody)
    (s : S3) (hne : ¬ App.parse_sqs_records event = []) :
    App.handler none report event s =
      match App.errorSweep (App.parse_sqs_records event) s with
      | .ok s2 =>
        ⟨some 500, [App.authAlert (App.parse_sqs_records event)], none, s2, [], []⟩
      | .error (e, s2) =>
        ⟨none, [App.authAlert (App.parse_sqs_records event)], some e, s2, [], []⟩ := by
  simp only [App.handler]
  rw [if_neg hne]

theorem handler_reportFail (event : List App.SQSBody) (s : S3)
    (hne : ¬ App.parse_sqs_records event = []) :
    App.handler (some ()) none event s =
      match App.errorSweep (App.parse_sqs_records event) s with
      | .ok s2 =>
        ⟨some 500, [App.reportAlert (App.parse_sqs_records event)], none, s2, [], []⟩
      | .error (e, s2) =>
        ⟨none, [App.reportAlert (App.parse_sqs_records event)], some e, s2, [], []⟩ := by
  simp only [App.handler]
  rw [if_neg hne]

theorem handler_match (rows : List Row) (event : List App.SQSBody) (s : S3)
    (hne : ¬ App.parse_sqs_records event = []) :
    App.handler (some ()) (some rows) event s =
      match App.matchLoop (App.buildOrderIds rows) (App.parse_sqs_records event) s with
      | .error (e, s2) => ⟨none, [], some e, s2, [], []⟩
      | .ok (s2, m, u) =>
        ⟨some 200,
          (if u = [] then [] else [App.unmatchedAlert u])
            ++ (if m = [] then [] else [App.matchedAlert m]),
          none, s2, m, u⟩ := by
  simp only [App.handler]
  rw [if_neg hne]

/-- C8: for every subject and body, send_alert publishes the subject
truncated to at most 100 characters and never raises: a publish failure is
logged (returned as data) and otherwise ignored, and a short subject is
published unchanged. -/
theorem C8_send_alert_truncates (publish : Except String Unit) (subject body : String) :
    App.send_alert_run publish subject body =
      ((pySlice subject 100, body),
        match publish with
        | .ok _ => none
        | .error e => some e) ∧
    (pySlice subject 100).length ≤ 100 ∧
    (subject.length ≤ 100 → pySlice subject 100 = subject) := by
  refine ⟨rfl, ?_, ?_⟩
  · show (subject.data.take 100).length ≤ 100
    exact List.length_take_le 100 subject.data
  · intro h
    show (⟨subject.data.take 100⟩ : String) = subject
    rw [List.take_of_length_le h]

/-- Witness for C8 at a concrete subject, with a failing publish. -/
theorem C8_witness : ("abc" : String).length ≤ 100 ∧ pySlice "abc" 100 = "abc" :=
  ⟨by decide, (C8_send_alert_truncates (.error "boom") "abc" "body").2.2 (by decide)⟩

/-- C10: the dashboard move writes destination prefix, timestamp,
underscore, then the source basename - never the bare filename - while the
pipeline move writes destination prefix plus unchanged filename. -/
theorem C10_dest_keys :
    (∀ now_ts dest_pfx source_key : String,
      Dash.destKeyOf now_ts dest_pfx source_key
        = dest_pfx ++ now_ts ++ "_" ++ basenameStr source_key) ∧
    (∀ dest_pfx filename : String,
      App.destKeyOf dest_pfx filename = dest_pfx ++ filename) ∧
    (∀ now_ts dest_pfx source_key : String,
      Dash.destKeyOf now_ts dest_pfx source_key
        ≠ App.destKeyOf dest_pfx (basenameStr source_key)) ∧
    (∀ (s : S3) (now_ts source_key dest_pfx : String),
      s Dash.BUCKET_NAME source_key = true →
      Dash.move_file s now_ts source_key dest_pfx =
        .ok (s3del
          (s3put s Dash.BUCKET_NAME (Dash.destKeyOf now_ts dest_pfx source_key))
          Dash.BUCKET_NAME source_key)) := by
  refine ⟨fun _ _ _ => rfl, fun _ _ => rfl, ?_, ?_⟩
  · intro ts dp sk h
    have h2 := congrArg String.length h
    rw [Dash.destKeyOf, App.destKeyOf] at h2
    simp only [String.length_append] at h2
    rw [show ("_" : String).length = 1 from rfl] at h2
    omega
  · intro s ts sk dp h
    unfold Dash.move_file
    rw [if_pos h]

/-- Witness for C10: the timestamped dashboard key differs from the
filename-preserving pipeline key at a concrete input, and a concrete
dashboard move writes exactly the timestamped destination. -/
theorem C10_witness :
    Dash.destKeyOf "20250101_000000" "printed/" "processed/PO-1.pdf"
      ≠ App.destKeyOf "printed/" (basenameStr "processed/PO-1.pdf") ∧
    Dash.move_file fxS0 "20250101_000000" "incoming/PO-1.pdf" "printed/" =
      .ok (s3del (s3put fxS0 Dash.BUCKET_NAME
          (Dash.destKeyOf "20250101_000000" "printed/" "incoming/PO-1.pdf"))
        Dash.BUCKET_NAME "incoming/PO-1.pdf") :=
  ⟨C10_dest_keys.2.2.1 "20250101_000000" "printed/" "processed/PO-1.pdf",
    C10_dest_keys.2.2.2 fxS0 "20250101_000000" "incoming/PO-1.pdf" "printed/"
      (by decide)⟩

/-- C9: the order index is exactly the set of str(value).strip() over rows
whose OrderID value is present and truthy, and an integer order id enters
the index as its decimal rendering, so an equal stem matches it. -/
theorem C9_order_index (rows : List Row) :
    (∀ x, x ∈ App.buildOrderIds rows ↔
      ∃ r ∈ rows, ∃ v, rowGet r App.ORDER_ID_COLUMN = some v ∧
        pyTruthy v = true ∧ pyStrip (pyStr v) = x) ∧
    (∀ r ∈ rows, ∀ n : Int, rowGet r App.ORDER_ID_COLUMN = some (.vInt n) →
      n ≠ 0 → Int.repr n ∈ App.buildOrderIds rows) := by
  refine ⟨fun x => mem_buildOrderIds, ?_⟩
  intro r hr n hget hn
  refine mem_buildOrderIds.mpr ⟨r, hr, .vInt n, hget, ?_, ?_⟩
  · show (n != 0) = true
    simpa using hn
  · show pyStrip (Int.repr n) = Int.repr n
    exact pyStrip_intRepr n

/-- Witness for C9: the stem 123 matches the integer order id 123. -/
theorem C9_witness : Int.repr 123 ∈ App.buildOrderIds fxIntRows :=
  (C9_order_index fxIntRows).2 [("OrderID", PyVal.vInt 123)] (by decide) 123
    (by decide) (by decide)

theorem parseRecs_append_malformed :
    ∀ (pre rest : List App.S3Rec), (∀ r ∈ pre, r ≠ App.S3Rec.malformedRec) →
      App.parseRecs (pre ++ App.S3Rec.malformedRec :: rest) = App.parseRecs pre := by
  intro pre
  induction pre with
  | nil => intro rest _; rfl
  | cons r pre ih =>
    intro rest hpre
    cases r with
    | malformedRec => exact absurd rfl (hpre _ (List.mem_cons_self _ _))
    | notif b k =>
      rw [List.cons_append]
      show (match App.parseInner b k with
        | some f => f :: App.parseRecs (pre ++ App.S3Rec.malformedRec :: rest)
        | none => App.parseRecs (pre ++ App.S3Rec.malformedRec :: rest)) = _
      rw [ih rest (fun x hx => hpre x (List.mem_cons_of_mem _ hx))]
      rfl

/-- C6 amended: decode is total and per-envelope (a malformed envelope
never fails the batch); an envelope whose JSON does not parse contributes
nothing; an envelope with a notification missing required fields keeps the
descriptors decoded before the first malformed notification and drops the
rest of that envelope. -/
theorem C6_decode_skips (pre rest : List App.S3Rec) (e1 e2 : List App.SQSBody)
    (hpre : ∀ r ∈ pre, r ≠ App.S3Rec.malformedRec) :
    App.parseBody .badJson = [] ∧
    App.parseRecs (pre ++ App.S3Rec.malformedRec :: rest) = App.parseRecs pre ∧
    App.parse_sqs_records (e1 ++ e2)
      = App.parse_sqs_records e1 ++ App.parse_sqs_records e2 := by
  refine ⟨rfl, parseRecs_append_malformed pre rest hpre, ?_⟩
  simp [App.parse_sqs_records]

/-- Witness for C6 at concrete envelopes. -/
theorem C6_witness :
    App.parseRecs ([App.S3Rec.notif "vwslabels" "incoming/PO-9.pdf"]
        ++ App.S3Rec.malformedRec :: [App.S3Rec.notif "vwslabels" "incoming/PO-8.pdf"])
      = App.parseRecs [App.S3Rec.notif "vwslabels" "incoming/PO-9.pdf"] :=
  (C6_decode_skips [App.S3Rec.notif "vwslabels" "incoming/PO-9.pdf"]
    [App.S3Rec.notif "vwslabels" "incoming/PO-8.pdf"] [] [] (by decide)).2.1

/-- C6 counterexample: an envelope with a malformed second notification is
a malformed envelope, yet it is not skipped (it contributes the descriptor
decoded before the failure); symmetrically, a well-formed notification
after a malformed one is dropped rather than returned. -/
theorem C6_counterexample :
    envelopeMalformed fxEnvGoodBad = true ∧
    App.parseBody fxEnvGoodBad
      = [⟨"vwslabels", "incoming/PO-9.pdf", "PO-9.pdf", "PO-9"⟩] ∧
    envelopeMalformed fxEnvBadGood = true ∧
    App.parseBody fxEnvBadGood = [] := by decide

/-- C7: a descriptor is emitted for an inner notification iff the base
filename is nonempty, does not begin with a dot, and its stripped stem is
nonempty; the emitted order reference is exactly that stripped stem; and
the match loop leaves every incoming/ key that is not a decoded source
(in particular every skipped entry) untouched. -/
theorem C7_decoder (bucket key : String) (f : FileRef) :
    (App.parseInner bucket key = some f ↔
      (¬ basenameStr key = "" ∧ ¬ (basenameStr key).data.head? = some '.' ∧
        ¬ pyStrip (stemStr (basenameStr key)) = "" ∧
        f = ⟨bucket, key, basenameStr key, pyStrip (stemStr (basenameStr key))⟩)) ∧
    (∀ (oids : List String) (files : List FileRef) (s s2 : S3) (m u : List String)
        (b k : String),
      App.matchLoop oids files s = .ok (s2, m, u) →
      App.INCOMING_PFX.data <+: k.data →
      (∀ g ∈ files, ¬(b = g.bucket ∧ k = g.key)) →
      s2 b k = s b k) := by
  constructor
  · constructor
    · intro h
      simp only [App.parseInner] at h
      split at h
      · exact Option.noConfusion h
      · next hcond =>
        split at h
        · exact Option.noConfusion h
        · next href =>
          injection h with h1
          exact ⟨fun hx => hcond (Or.inl hx), fun hx => hcond (Or.inr hx),
            href, h1.symm⟩
    · rintro ⟨h1, h2, h3, rfl⟩
      simp only [App.parseInner]
      rw [if_neg (fun hx => hx.elim h1 h2), if_neg h3]
  · intro oids files s s2 m u b k h hk hsrc
    cases hbk : s b k with
    | true => exact matchLoop_keeps oids files s s2 m u b k h hbk hsrc
    | false =>
      refine matchLoop_stays_false oids files s s2 m u b k h hbk ?_
      intro g hg hcol
      exact incoming_ne_actualDest hk oids g hcol.2

/-- Witness for C7: a hidden file is skipped by the decoder and a plain
label file is decoded with the trimmed stem as order reference. -/
theorem C7_witness :
    App.parseInner "vwslabels" "incoming/PO-7.pdf"
      = some ⟨"vwslabels", "incoming/PO-7.pdf", "PO-7.pdf", "PO-7"⟩ :=
  (C7_decoder "vwslabels" "incoming/PO-7.pdf"
      ⟨"vwslabels", "incoming/PO-7.pdf", "PO-7.pdf", "PO-7"⟩).1.mpr
    ⟨by decide, by decide, by decide, by decide⟩

theorem poll_go_le (resp : Nat → App.PollResp) :
    ∀ (fuel i : Nat), (App.poll_go resp fuel i).2 ≤ i + fuel := by
  intro fuel
  induction fuel with
  | zero => intro i; simp [App.poll_go]
  | succ k ih =>
    intro i
    simp only [App.poll_go]
    cases hr : resp i with
    | transport => dsimp only; omega
    | http code st =>
      dsimp only
      by_cases h2 : code = 200
      · rw [if_pos h2]
        by_cases hd : st = some "Done"
        · rw [if_pos hd]; dsimp only; omega
        · rw [if_neg hd]
          by_cases hl : st = some "Request too Large"
          · rw [if_pos hl]; dsimp only; omega
          · rw [if_neg hl]
            have := ih (i + 1)
            omega
      · rw [if_neg h2]; dsimp only; omega

theorem poll_go_done_iff (resp : Nat → App.PollResp) :
    ∀ (fuel i : Nat),
      (App.poll_go resp fuel i).1 = .done ↔
        ∃ j, i ≤ j ∧ j < i + fuel ∧ resp j = .http 200 (some "Done") ∧
          ∀ t, i ≤ t → t < j → App.pollContinues (resp t) = true := by
  intro fuel
  induction fuel with
  | zero =>
    intro i
    constructor
    · intro h; simp [App.poll_go] at h
    · rintro ⟨j, h1, h2, _⟩; omega
  | succ k ih =>
    intro i
    simp only [App.poll_go]
    cases hr : resp i with
    | transport =>
      dsimp only
      constructor
      · intro h; exact absurd h (by decide)
      · rintro ⟨j, hij, hlt, hdone, hcont⟩
        rcases Nat.eq_or_lt_of_le hij with rfl | hij2
        · rw [hr] at hdone; exact App.PollResp.noConfusion hdone
        · have hc := hcont i (Nat.le_refl i) hij2
          rw [hr] at hc
          simp [App.pollContinues] at hc
    | http code st =>
      dsimp only
      by_cases h2 : code = 200
      · rw [if_pos h2]
        by_cases hd : st = some "Done"
        · rw [if_pos hd]
          dsimp only
          constructor
          · intro _
            refine ⟨i, Nat.le_refl i, by omega, ?_, ?_⟩
            · rw [h2, hd] at hr; exact hr
            · intro t ht1 ht2; exact absurd ht2 (by omega)
          · intro _; rfl
        · rw [if_neg hd]
          by_cases hl : st = some "Request too Large"
          · rw [if_pos hl]
            dsimp only
            constructor
            · intro h; exact absurd h (by decide)
            · rintro ⟨j, hij, hlt, hdone, hcont⟩
              rcases Nat.eq_or_lt_of_le hij with rfl | hij2
              · rw [hr] at hdone
                injection hdone with hc hs
                exact (hd hs).elim
              · have hc := hcont i (Nat.le_refl i) hij2
                rw [hr] at hc
                simp [App.pollContinues, hl] at hc
          · rw [if_neg hl]
            rw [ih (i + 1)]
            constructor
            · rintro ⟨j, hij, hlt, hdone, hcont⟩
              refine ⟨j, by omega, by omega, hdone, ?_⟩
              intro t ht1 ht2
              rcases Nat.eq_or_lt_of_le ht1 with rfl | ht3
              · rw [hr]
                simp [App.pollContinues, h2, hd, hl]
              · exact hcont t (by omega) ht2
            · rintro ⟨j, hij, hlt, hdone, hcont⟩
              have hne : ¬ j = i := by
                intro hx
                rw [hx, hr] at hdone
                injection hdone with hc hs
                exact hd hs
              refine ⟨j, by omega, by omega, hdone, ?_⟩
              intro t ht1 ht2
              exact hcont t (by omega) ht2
      · rw [if_neg h2]
        dsimp only
        constructor
        · intro h; exact absurd h (by decide)
        · rintro ⟨j, hij, hlt, hdone, hcont⟩
          rcases Nat.eq_or_lt_of_le hij with rfl | hij2
          · rw [hr] at hdone
            injection hdone with hc hs
            exact (h2 hc).elim
          · have hc := hcont i (Nat.le_refl i) hij2
            rw [hr] at hc
            simp [App.pollContinues, h2] at hc

theorem poll_go_timeout_iff (resp : Nat → App.PollResp) :
    ∀ (fuel i : Nat),
      (App.poll_go resp fuel i).1 = .timedOut ↔
        ∀ t, i ≤ t → t < i + fuel → App.pollContinues (resp t) = true := by
  intro fuel
  induction fuel with
  | zero =>
    intro i
    constructor
    · intro _ t ht1 ht2; exact absurd ht2 (by omega)
    · intro _; rfl
  | succ k ih =>
    intro i
    simp only [App.poll_go]
    cases hr : resp i with
    | transport =>
      dsimp only
      constructor
      · intro h; exact absurd h (by decide)
      · intro hall
        have hc := hall i (Nat.le_refl i) (by omega)
        rw [hr] at hc
        simp [App.pollContinues] at hc
    | http code st =>
      dsimp only
      by_cases h2 : code = 200
      · rw [if_pos h2]
        by_cases hd : st = some "Done"
        · rw [if_pos hd]
          dsimp only
          constructor
          · intro h; exact absurd h (by decide)
          · intro hall
            have hc := hall i (Nat.le_refl i) (by omega)
            rw [hr] at hc
            simp [App.pollContinues, hd] at hc
        · rw [if_neg hd]
          by_cases hl : st = some "Request too Large"
          · rw [if_pos hl]
            dsimp only
            constructor
            · intro h; exact absurd h (by decide)
            · intro hall
              have hc := hall i (Nat.le_refl i) (by omega)
              rw [hr] at hc
              simp [App.pollContinues, hl] at hc
          · rw [if_neg hl]
            rw [ih (i + 1)]
            constructor
            · intro hall t ht1 ht2
              rcases Nat.eq_or_lt_of_le ht1 with rfl | ht3
              · rw [hr]
                simp [App.pollContinues, h2, hd, hl]
              · exact hall t (by omega) (by omega)
            · intro hall t ht1 ht2
              exact hall t (by omega) (by omega)
      · rw [if_neg h2]
        dsimp only
        constructor
        · intro h; exact absurd h (by decide)
        · intro hall
          have hc := hall i (Nat.le_refl i) (by omega)
          rw [hr] at hc
          simp [App.pollContinues, h2] at hc

/-- C5: the poll phase issues at most the fixed budget of 30 status
requests with a 2-second constant delay; it proceeds to fetch exactly when
some request within the budget answers HTTP 200 with status Done after
only continue-polling answers; an all-continue budget is a timeout; and
whenever the poll verdict is not Done, pull_report returns None for every
possible fetch result, while on Done the result is exactly the fetch
outcome. -/
theorem C5_poll_bounded (resp : Nat → App.PollResp) :
    App.POLL_DELAY_SECONDS = 2 ∧
    (App.pollPhase resp).2 ≤ App.POLL_ATTEMPTS ∧
    ((App.pollPhase resp).1 = .done ↔
      ∃ j, j < App.POLL_ATTEMPTS ∧ resp j = .http 200 (some "Done") ∧
        ∀ t, t < j → App.pollContinues (resp t) = true) ∧
    ((App.pollPhase resp).1 = .timedOut ↔
      ∀ t, t < App.POLL_ATTEMPTS → App.pollContinues (resp t) = true) ∧
    (¬ (App.pollPhase resp).1 = .done →
      ∀ (submit : App.SubmitResp) (fetch : App.FetchResp),
        App.pull_report submit resp fetch = none) ∧
    (∀ (tid : String) (fetch : App.FetchResp), ¬ tid = "" →
      (App.pollPhase resp).1 = .done →
      App.pull_report (.http 200 (some tid)) resp fetch = App.fetchOutcome fetch) := by
  refine ⟨rfl, poll_go_le resp App.POLL_ATTEMPTS 0, ?_, ?_, ?_, ?_⟩
  · rw [App.pollPhase, poll_go_done_iff resp App.POLL_ATTEMPTS 0]
    constructor
    · rintro ⟨j, _, hlt, hdone, hcont⟩
      exact ⟨j, by omega, hdone, fun t ht => hcont t (by omega) ht⟩
    · rintro ⟨j, hlt, hdone, hcont⟩
      exact ⟨j, by omega, by omega, hdone, fun t _ ht => hcont t ht⟩
  · rw [App.pollPhase, poll_go_timeout_iff resp App.POLL_ATTEMPTS 0]
    constructor
    · intro hall t ht; exact hall t (by omega) (by omega)
    · intro hall t _ ht; exact hall t (by omega)
  · intro hnd submit fetch
    cases submit with
    | transport => rfl
    | http code tid =>
      simp only [App.pull_report]
      by_cases h2 : code = 200
      · rw [if_pos h2]
        cases tid with
        | none => rfl
        | some t =>
          dsimp only
          by_cases ht : t = ""
          · rw [if_pos ht]
          · rw [if_neg ht]
      · rw [if_neg h2]
  · intro tid fetch ht hdone
    simp only [App.pull_report]
    rw [if_pos (by trivial), if_neg ht, hdone]

/-- Witness for C5 at an oracle that answers Done immediately. -/
theorem C5_witness :
    App.pull_report (.http 200 (some "task-1")) fxRespDone
        (.http 200 (some fxRows))
      = App.fetchOutcome (.http 200 (some fxRows)) :=
  (C5_poll_bounded fxRespDone).2.2.2.2.2 "task-1" (.http 200 (some fxRows))
    (by decide) (by decide)

/-- C1 amended: a move whose source object no longer exists raises (the
failure is logged and re-raised, not skipped): move_file returns the
sourceMissing error, and reprocessing a batch whose first descriptor has
already been moved makes both the match loop and the error sweep throw
before any write, leaving the storage state unchanged. -/
theorem C1_missing_source_raises (s : S3) (oids : List String) (f : FileRef)
    (fs : List FileRef) (bucket source_key dest_pfx filename : String)
    (hsk : s bucket source_key = false) (hf : s f.bucket f.key = false) :
    App.move_file s bucket source_key dest_pfx filename = .error .sourceMissing ∧
    App.matchLoop oids (f :: fs) s = .error (.sourceMissing, s) ∧
    App.errorSweep (f :: fs) s = .error (.sourceMissing, s) := by
  refine ⟨move_file_error hsk, ?_, ?_⟩
  · rw [matchLoop_cons]
    by_cases hmem : f.order_ref ∈ oids
    · rw [if_pos hmem, move_file_error hf]
    · rw [if_neg hmem, move_file_error hf]
  · rw [errorSweep_cons, move_file_error hf]

/-- Witness for C1 at a concrete already-moved batch. -/
theorem C1_witness :
    App.move_file fxEmpty "vwslabels" "incoming/PO-1.pdf" App.PROCESSED_PFX "PO-1.pdf"
      = .error .sourceMissing ∧
    App.matchLoop ["PO-1"] [⟨"vwslabels", "incoming/PO-1.pdf", "PO-1.pdf", "PO-1"⟩] fxEmpty
      = .error (.sourceMissing, fxEmpty) ∧
    App.errorSweep [⟨"vwslabels", "incoming/PO-1.pdf", "PO-1.pdf", "PO-1"⟩] fxEmpty
      = .error (.sourceMissing, fxEmpty) :=
  C1_missing_source_raises fxEmpty ["PO-1"]
    ⟨"vwslabels", "incoming/PO-1.pdf", "PO-1.pdf", "PO-1"⟩ []
    "vwslabels" "incoming/PO-1.pdf" App.PROCESSED_PFX "PO-1.pdf" (by decide) (by decide)

/-- C1 counterexample: rerunning the handler on a batch whose objects have
all already been moved raises a sourceMissing exception instead of
treating each move as a logged no-op skip. -/
theorem C1_counterexample :
    (App.handler (some ()) (some fxRows) fxEvent fxEmpty).raised
      = some MoveErr.sourceMissing := by decide

/-- C3 amended: on a batch-fatal error (authentication failure, or report
failure) the handler publishes exactly one aggregated alert whose body has
one line per affected file, attempts the error-state moves sequentially,
and, when every source is still present, moves every descriptor to errors/
(removing it from incoming/) and reports the batch failed with status 500.
A failing error-state move however raises and aborts the remaining moves
(the sweep is not best-effort). -/
theorem C3_fatal_error_path (event : List App.SQSBody) (s : S3)
    (report : Option (List Row))
    (hne : ¬ App.parse_sqs_records event = [])
    (hsrc : ∀ f ∈ App.parse_sqs_records event, s f.bucket f.key = true)
    (hpfx : ∀ f ∈ App.parse_sqs_records event, App.INCOMING_PFX.data <+: f.key.data)
    (hdist : (App.parse_sqs_records event).Pairwise
      (fun f g => ¬(f.bucket = g.bucket ∧ f.key = g.key))) :
    ((App.handler none report event s).alerts
        = [App.authAlert (App.parse_sqs_records event)] ∧
      (App.handler none report event s).status = some 500 ∧
      ∀ f ∈ App.parse_sqs_records event,
        (App.handler none report event s).final f.bucket
            (App.destKeyOf App.ERRORS_PFX f.filename) = true ∧
        (App.handler none report event s).final f.bucket f.key = false) ∧
    ((App.handler (some ()) none event s).alerts
        = [App.reportAlert (App.parse_sqs_records event)] ∧
      (App.handler (some ()) none event s).status = some 500 ∧
      ∀ f ∈ App.parse_sqs_records event,
        (App.handler (some ()) none event s).final f.bucket
            (App.destKeyOf App.ERRORS_PFX f.filename) = true ∧
        (App.handler (some ()) none event s).final f.bucket f.key = false) ∧
    (∀ f ∈ App.parse_sqs_records event,
      ("- " ++ f.filename) ∈ App.alertLines (App.parse_sqs_records event)) := by
  obtain ⟨s2, hsw, hrest⟩ :=
    errorSweep_ok (App.parse_sqs_records event) s hsrc hpfx hdist
  refine ⟨?_, ?_, ?_⟩
  · rw [handler_authFail report event s hne, hsw]
    exact ⟨rfl, rfl, fun f hf => hrest f hf⟩
  · rw [handler_reportFail event s hne, hsw]
    exact ⟨rfl, rfl, fun f hf => hrest f hf⟩
  · intro f hf
    exact List.mem_map.mpr ⟨f, hf, rfl⟩

/-- Witness for C3 at a concrete two-file batch with failed auth. -/
theorem C3_witness :
    (App.handler none none fxEvent fxS0).status = some 500 ∧
    (App.handler none none fxEvent fxS0).alerts
      = [App.authAlert (App.parse_sqs_records fxEvent)] := by
  have h := C3_fatal_error_path fxEvent fxS0 none (by decide) (by decide)
    (by decide) (by decide)
  exact ⟨h.1.2.1, h.1.1⟩

/-- C3 counterexample: with authentication failed and the first object of
the batch already gone, the error-state move of the second descriptor is
never attempted: the handler raises at the first move and the second file
stays in incoming/ and never reaches errors/, contradicting the claimed
best-effort sweep. -/
theorem C3_counterexample :
    (App.handler none none fxEvent fxOnlySecond).raised = some MoveErr.sourceMissing ∧
    (App.handler none none fxEvent fxOnlySecond).final
      "vwslabels" "incoming/PO-2.pdf" = true ∧
    (App.handler none none fxEvent fxOnlySecond).final
      "vwslabels" "errors/PO-2.pdf" = false := by decide

/-- C4 amended: in a successful run, a descriptor is recorded matched
exactly when its order reference (the trimmed filename stem) is equal,
case-sensitively and post-trim, to str(value).strip() of the order-id
value of some report row whose value is present and truthy; all other
descriptors are recorded unmatched.  Matching is exact string equality on
trimmed forms - nothing fuzzy, partial or case-insensitive. -/
theorem C4_exact_matching (rows : List Row) (event : List App.SQSBody) (s : S3)
    (res : App.RunResult)
    (hrun : App.handler (some ()) (some rows) event s = res)
    (h200 : res.status = some 200)
    (hne : ¬ App.parse_sqs_records event = []) :
    (∀ x, x ∈ App.buildOrderIds rows ↔
      ∃ r ∈ rows, ∃ v, rowGet r App.ORDER_ID_COLUMN = some v ∧
        pyTruthy v = true ∧ pyStrip (pyStr v) = x) ∧
    res.matched = ((App.parse_sqs_records event).filter
      (fun f => decide (f.order_ref ∈ App.buildOrderIds rows))).map
        (fun f => f.filename) ∧
    res.unmatched = ((App.parse_sqs_records event).filter
      (fun f => !decide (f.order_ref ∈ App.buildOrderIds rows))).map
        (fun f => f.filename) := by
  rw [handler_match rows event s hne] at hrun
  cases hml : App.matchLoop (App.buildOrderIds rows) (App.parse_sqs_records event) s with
  | error es =>
    obtain ⟨e, s2⟩ := es
    rw [hml] at hrun
    rw [← hrun] at h200
    simp at h200
  | ok t =>
    obtain ⟨s2, m, u⟩ := t
    rw [hml] at hrun
    obtain ⟨hm, hu⟩ :=
      matchLoop_lists (App.buildOrderIds rows) (App.parse_sqs_records event) s s2 m u hml
    rw [← hrun]
    exact ⟨fun x => mem_buildOrderIds, hm, hu⟩

/-- Witness for C4 at a concrete batch and report. -/
theorem C4_witness :
    (App.handler (some ()) (some fxRows) fxEvent fxS0).matched
      = ((App.parse_sqs_records fxEvent).filter
        (fun f => decide (f.order_ref ∈ App.buildOrderIds fxRows))).map
          (fun f => f.filename) :=
  (C4_exact_matching fxRows fxEvent fxS0 _ rfl (by decide) (by decide)).2.1

/-- C4 counterexample: the report row value 0 (an integer, present but
falsy) has trimmed rendering 0, equal to the trimmed stem of 0.pdf, yet
the row is dropped by the truthiness filter, so the descriptor is recorded
unmatched and moved to errors/ - the claimed iff fails. -/
theorem C4_counterexample :
    pyStrip (pyStr (PyVal.vInt 0)) = pyStrip (stemStr (basenameStr "incoming/0.pdf")) ∧
    App.buildOrderIds fxZeroRows = [] ∧
    (App.handler (some ()) (some fxZeroRows) fxZeroEvent fxZeroS0).matched = [] ∧
    (App.handler (some ()) (some fxZeroRows) fxZeroEvent fxZeroS0).unmatched
      = ["0.pdf"] ∧
    (App.handler (some ()) (some fxZeroRows) fxZeroEvent fxZeroS0).final
      "vwslabels" "errors/0.pdf" = true := by decide

/-- C2: for every batch run that succeeds (returned status 200) on a
nonempty decoded descriptor list whose sources lie below incoming/ with
pairwise distinct filenames and no pre-existing terminal objects, the
matched and unmatched counts sum to the number of decoded descriptors and
every descriptor ends under exactly one of processed/ and errors/ while
its incoming/ source is removed. -/
theorem C2_terminal_states (auth : Option Unit) (report : Option (List Row))
    (event : List App.SQSBody) (s : S3) (res : App.RunResult)
    (hrun : App.handler auth report event s = res)
    (h200 : res.status = some 200)
    (hne : ¬ App.parse_sqs_records event = [])
    (hpfx : ∀ f ∈ App.parse_sqs_records event, App.INCOMING_PFX.data <+: f.key.data)
    (hfn : (App.parse_sqs_records event).Pairwise (fun f g => ¬ f.filename = g.filename))
    (hterm : ∀ f ∈ App.parse_sqs_records event,
      s f.bucket (App.destKeyOf App.PROCESSED_PFX f.filename) = false ∧
      s f.bucket (App.destKeyOf App.ERRORS_PFX f.filename) = false) :
    res.matched.length + res.unmatched.length = (App.parse_sqs_records event).length ∧
    ∀ f ∈ App.parse_sqs_records event,
      res.final f.bucket f.key = false ∧
      ((res.final f.bucket (App.destKeyOf App.PROCESSED_PFX f.filename) = true ∧
        res.final f.bucket (App.destKeyOf App.ERRORS_PFX f.filename) = false) ∨
       (res.final f.bucket (App.destKeyOf App.ERRORS_PFX f.filename) = true ∧
        res.final f.bucket (App.destKeyOf App.PROCESSED_PFX f.filename) = false)) := by
  cases auth with
  | none =>
    exfalso
    rw [handler_authFail report event s hne] at hrun
    cases hsw : App.errorSweep (App.parse_sqs_records event) s with
    | ok s2 =>
      rw [hsw] at hrun
      rw [← hrun] at h200
      simp at h200
    | error es =>
      obtain ⟨e, s2⟩ := es
      rw [hsw] at hrun
      rw [← hrun] at h200
      simp at h200
  | some u0 =>
    cases u0
    cases report with
    | none =>
      exfalso
      rw [handler_reportFail event s hne] at hrun
      cases hsw : App.errorSweep (App.parse_sqs_records event) s with
      | ok s2 =>
        rw [hsw] at hrun
        rw [← hrun] at h200
        simp at h200
      | error es =>
        obtain ⟨e, s2⟩ := es
        rw [hsw] at hrun
        rw [← hrun] at h200
        simp at h200
    | some rows =>
      rw [handler_match rows event s hne] at hrun
      cases hml : App.matchLoop (App.buildOrderIds rows)
          (App.parse_sqs_records event) s with
      | error es =>
        exfalso
        obtain ⟨e, s2⟩ := es
        rw [hml] at hrun
        rw [← hrun] at h200
        simp at h200
      | ok t =>
        obtain ⟨s2, m, u⟩ := t
        rw [hml] at hrun
        rw [← hrun]
        constructor
        · exact matchLoop_count (App.buildOrderIds rows)
            (App.parse_sqs_records event) s s2 m u hml
        · intro f hf
          have hend := matchLoop_end (App.buildOrderIds rows)
            (App.parse_sqs_records event) s s2 m u hml hpfx f hf
          refine ⟨hend.1, ?_⟩
          by_cases hmem : f.order_ref ∈ App.buildOrderIds rows
          · left
            constructor
            · have h1 := hend.2
              unfold App.actualDest at h1
              rw [if_pos hmem] at h1
              exact h1
            · refine matchLoop_stays_false (App.buildOrderIds rows)
                (App.parse_sqs_records event) s s2 m u f.bucket
                (App.destKeyOf App.ERRORS_PFX f.filename) hml (hterm f hf).2 ?_
              intro g hg hcol
              obtain ⟨hcb, hck⟩ := hcol
              unfold App.actualDest at hck
              by_cases hgmem : g.order_ref ∈ App.buildOrderIds rows
              · rw [if_pos hgmem] at hck
                exact procKey_ne_errKey hck.symm
              · rw [if_neg hgmem] at hck
                rw [App.destKeyOf, App.destKeyOf] at hck
                have hfg : f.filename = g.filename := strAppend_cancel_left hck
                by_cases hgf : g = f
                · rw [hgf] at hgmem
                  exact hgmem hmem
                · exact (List.Pairwise.forall
                    (by intro a b hab hx; exact hab hx.symm)
                    hfn hg hf hgf) hfg.symm
          · right
            constructor
            · have h1 := hend.2
              unfold App.actualDest at h1
              rw [if_neg hmem] at h1
              exact h1
            · refine matchLoop_stays_false (App.buildOrderIds rows)
                (App.parse_sqs_records event) s s2 m u f.bucket
                (App.destKeyOf App.PROCESSED_PFX f.filename) hml (hterm f hf).1 ?_
              intro g hg hcol
              obtain ⟨hcb, hck⟩ := hcol
              unfold App.actualDest at hck
              by_cases hgmem : g.order_ref ∈ App.buildOrderIds rows
              · rw [if_pos hgmem] at hck
                rw [App.destKeyOf, App.destKeyOf] at hck
                have hfg : f.filename = g.filename := strAppend_cancel_left hck
                by_cases hgf : g = f
                · rw [hgf] at hgmem
                  exact hmem hgmem
                · exact (List.Pairwise.forall
                    (by intro a b hab hx; exact hab hx.symm)
                    hfn hg hf hgf) hfg.symm
              · rw [if_neg hgmem] at hck
                exact procKey_ne_errKey hck

/-- Witness for C2 at a concrete two-file batch, one matched and one not. -/
theorem C2_witness :
    (App.handler (some ()) (some fxRows) fxEvent fxS0).matched.length
      + (App.handler (some ()) (some fxRows) fxEvent fxS0).unmatched.length
      = (App.parse_sqs_records fxEvent).length :=
  (C2_terminal_states (some ()) (some fxRows) fxEvent fxS0 _ rfl (by decide)
    (by decide) (by decide) (by decide) (by decide)).1
